import Mathlib

/-!
Verification of the in-memory note store of `src/api/notes.ts`.

The TypeScript source is shallowly embedded:
* JS `Map` objects become insertion-ordered association lists
  (`mapGet` / `mapSet` / `mapDelete` mirror `get` / `set` / `delete`);
* `Date` timestamps become integers (`getTime()` values);
* `Math.random() * 16 | 0` becomes an explicit stream of draws `r : Nat → Nat`,
  reduced `% 16` at each use;
* zod schemas become issue-collecting validation functions that walk the
  object keys in declaration order, and thrown `ZodError`s become `Except`
  error values carrying the joined message produced by the API wrappers.
-/

/-- The `mood` enum of `NoteSchema`. -/
inductive Mood where
  | calm
  | inspired
  | reflective
  | grateful
  | neutral
deriving DecidableEq

/-- The `Note` entity of `NoteSchema` (timestamps as `getTime()` integers). -/
structure Note where
  id : String
  title : String
  content : String
  category : String
  tags : List String
  createdAt : Int
  updatedAt : Int
  mood : Option Mood
deriving DecidableEq

/-- `CreateNoteRequest`: `tags` and `mood` are optional fields. -/
structure CreateNoteRequest where
  title : String
  content : String
  category : String
  tags : Option (List String)
  mood : Option Mood
deriving DecidableEq

/-- The private state of `NotesStore`: `notesById` and `notes`, as
insertion-ordered association lists standing for the two JS `Map`s. -/
structure Store where
  notesById : List (String × Note)
  notes : List (String × List Note)
deriving DecidableEq

/-- The store the singleton `new NotesStore()` starts from: two empty maps. -/
def emptyStore : Store := ⟨[], []⟩

instance {ε α : Type} [DecidableEq ε] [DecidableEq α] : DecidableEq (Except ε α) := fun x y =>
  match x, y with
  | Except.ok a, Except.ok b => decidable_of_iff (a = b) (by simp)
  | Except.ok _, Except.error _ => Decidable.isFalse (by simp)
  | Except.error _, Except.ok _ => Decidable.isFalse (by simp)
  | Except.error e, Except.error e' => decidable_of_iff (e = e') (by simp)

/-- `Map.prototype.get`, returning the value of the (unique) entry with the
given key. -/
def mapGet {α : Type} : List (String × α) → String → Option α
  | [], _ => none
  | p :: m, k => if p.1 = k then some p.2 else mapGet m k

/-- Replace the value stored under an existing key, keeping its position. -/
def mapReplace {α : Type} : List (String × α) → String → α → List (String × α)
  | [], _, _ => []
  | p :: m, k, v => if p.1 = k then (k, v) :: mapReplace m k v else p :: mapReplace m k v

/-- `Map.prototype.set`: update in place if the key exists, otherwise append
the new entry at the end (JS `Map` iteration is insertion-ordered). -/
def mapSet {α : Type} (m : List (String × α)) (k : String) (v : α) : List (String × α) :=
  if (mapGet m k).isSome then mapReplace m k v else m ++ [(k, v)]

/-- `Map.prototype.delete`: drop the entry with the given key. -/
def mapDelete {α : Type} : List (String × α) → String → List (String × α)
  | [], _ => []
  | p :: m, k => if p.1 = k then mapDelete m k else p :: mapDelete m k

/-- `v.toString(16)` for a nibble `v < 16`: one lowercase hex digit. -/
def hexDigit (n : Nat) : Char :=
  if n < 10 then Char.ofNat ('0'.toNat + n) else Char.ofNat ('a'.toNat + (n - 10))

/-- The template string of `generateId`. -/
def uuidTemplate : List Char := "xxxxxxxx-xxxx-4xxx-yxxx-xxxxxxxxxxxx".data

/-- `template.replace(/[xy]/g, c => ...)`: each `x` is replaced by a random
nibble rendered in hex, each `y` by `(r & 0x3) | 0x8` rendered in hex; other
characters are kept.  `r i % 16` is the value of `(Math.random() * 16) | 0`
at the `i`-th draw. -/
def replXY (r : Nat → Nat) : Nat → List Char → List Char
  | _, [] => []
  | i, c :: cs =>
    if c = 'x' then hexDigit (r i % 16) :: replXY r (i + 1) cs
    else if c = 'y' then hexDigit (((r i % 16) &&& 3) ||| 8) :: replXY r (i + 1) cs
    else c :: replXY r i cs

namespace NotesStore

/-- `NotesStore.generateId`, with the random draws made explicit. -/
def generateId (r : Nat → Nat) : String :=
  ⟨replXY r 0 uuidTemplate⟩

end NotesStore

/-- Hex digit as accepted by the UUID check (`[0-9a-fA-F]`). -/
def isHexDigitChar (c : Char) : Bool :=
  ('0' ≤ c && c ≤ '9') || ('a' ≤ c && c ≤ 'f') || ('A' ≤ c && c ≤ 'F')

/-- The 8-4-4-4-12 hyphen-separated hex layout required by
`z.string().uuid()`, on the character list. -/
def isUuidList : List Char → Bool
  | a0 :: a1 :: a2 :: a3 :: a4 :: a5 :: a6 :: a7 :: d1 ::
    b0 :: b1 :: b2 :: b3 :: d2 ::
    c0 :: c1 :: c2 :: c3 :: d3 ::
    e0 :: e1 :: e2 :: e3 :: d4 ::
    f0 :: f1 :: f2 :: f3 :: f4 :: f5 :: f6 :: f7 :: f8 :: f9 :: f10 :: f11 :: [] =>
    d1 = '-' && d2 = '-' && d3 = '-' && d4 = '-' &&
    [a0, a1, a2, a3, a4, a5, a6, a7,
     b0, b1, b2, b3, c0, c1, c2, c3, e0, e1, e2, e3,
     f0, f1, f2, f3, f4, f5, f6, f7, f8, f9, f10, f11].all isHexDigitChar
  | _ => false

/-- The id check of `NoteSchema` (`z.string().uuid()`). -/
def isUuid (s : String) : Bool := isUuidList s.data

/-- Issues of a `z.string().min(lo, loMsg).max(hi, hiMsg)` check. -/
def strIssues (s : String) (lo hi : Nat) (loMsg hiMsg : String) : List String :=
  (if s.length < lo then [loMsg] else []) ++ (if s.length > hi then [hiMsg] else [])

/-- Issues of `z.array(z.string().max(30))` (zod's default too-long message). -/
def tagIssues (tags : List String) : List String :=
  tags.flatMap fun t =>
    if t.length > 30 then ["String must contain at most 30 character(s)"] else []

/-- Issues collected by `CreateNoteRequestSchema.parse`, in key order
(`title`, `content`, `category`, `tags`; `mood` is typed and cannot fail). -/
def createRequestIssues (req : CreateNoteRequest) : List String :=
  strIssues req.title 1 255 "Title is required" "Title must not exceed 255 characters" ++
  strIssues req.content 0 10000 "" "Content must not exceed 10000 characters" ++
  strIssues req.category 1 50 "Category is required" "Category must not exceed 50 characters" ++
  tagIssues (req.tags.getD [])

/-- Issues collected by `NoteSchema.parse`, in key order (`id`, `title`,
`content`, `category`, `tags`; the dates and the mood are typed). -/
def noteIssues (n : Note) : List String :=
  (if isUuid n.id then [] else ["Note ID must be a valid UUID"]) ++
  strIssues n.title 1 255 "Title is required" "Title must not exceed 255 characters" ++
  strIssues n.content 0 10000 "" "Content must not exceed 10000 characters" ++
  strIssues n.category 1 50 "Category is required" "Category must not exceed 50 characters" ++
  tagIssues n.tags

/-- Issues collected by `ReadNotesByCategoryRequestSchema.parse`, in key
order (`category`, `limit`, `offset`); numbers are embedded as integers, so
the `.int()` checks cannot fail and `.positive()` / `.nonnegative()` carry
zod's default messages. -/
def readRequestIssues (category : String) (limitOpt offsetOpt : Option Int) : List String :=
  (if category.length < 1 then ["Category is required"] else []) ++
  (match limitOpt with
   | some l => if l ≤ 0 then ["Number must be greater than 0"] else []
   | none => []) ++
  (match offsetOpt with
   | some o => if o < 0 then ["Number must be greater than or equal to 0"] else []
   | none => [])

/-- The validated request produced by `CreateNoteRequestSchema.parse`:
the `tags` default `[]` has been applied. -/
def parsedReq (req : CreateNoteRequest) : CreateNoteRequest :=
  { req with tags := some (req.tags.getD []) }

/-- Descending-recency order: `a` may come before `b` when `b` is not newer.
This is the order realised by the stable JS sort with comparator
`(a, b) => b.createdAt.getTime() - a.createdAt.getTime()`. -/
def newerEq (a b : Note) : Prop := b.createdAt ≤ a.createdAt

instance : DecidableRel newerEq := fun _ _ => Int.decLe _ _

instance : IsTotal Note newerEq := ⟨fun a b => le_total b.createdAt a.createdAt⟩

instance : IsTrans Note newerEq := ⟨fun _ _ _ h1 h2 => le_trans h2 h1⟩

/-- Index clamping of `Array.prototype.slice`: negative indices count from
the end, indices past the end are clamped to the length. -/
def jsSliceIdx (len : Nat) (i : Int) : Nat :=
  if i < 0 then ((len : Int) + i).toNat else min i.toNat len

/-- `Array.prototype.slice(start, stop)`. -/
def jsSlice {α : Type} (l : List α) (start stop : Int) : List α :=
  let k := jsSliceIdx l.length start
  let e := jsSliceIdx l.length stop
  (l.drop k).take (e - k)

/-- `findIndex` by id followed by `splice(index, 1)` when the index is
non-negative: remove the first note with the given id, if any. -/
def removeFirstById : List Note → String → List Note
  | [], _ => []
  | m :: ms, nid => if m.id = nid then ms else m :: removeFirstById ms nid

namespace NotesStore

/-- The note object built by `NotesStore.createNote` before validation:
generated id, request fields (`tags` defaulting via `request.tags || []`),
and both timestamps set to `now`. -/
def mkNote (req : CreateNoteRequest) (r : Nat → Nat) (now : Int) : Note :=
  { id := generateId r, title := req.title, content := req.content, category := req.category,
    tags := req.tags.getD [], createdAt := now, updatedAt := now, mood := req.mood }

/-- `NotesStore.createNote`: build the note, validate it with
`NoteSchema.parse` (which throws before any index is touched), then store it
under its id and append it to its category's sequence. -/
def createNote (s : Store) (req : CreateNoteRequest) (r : Nat → Nat) (now : Int) :
    Except (List String) Note × Store :=
  match noteIssues (mkNote req r now) with
  | [] =>
    (Except.ok (mkNote req r now),
     { notesById := mapSet s.notesById (generateId r) (mkNote req r now),
       notes := mapSet s.notes req.category
         (((mapGet s.notes req.category).getD []) ++ [mkNote req r now]) })
  | issues => (Except.error issues, s)

/-- `NotesStore.readNotesByCategory`: `options.limit || 100` and
`options.offset || 0`, copy the category's sequence, sort the copy by
`createdAt` descending (stable), slice `[offset, offset + limit)`. -/
def readNotesByCategory (s : Store) (category : String) (limitOpt offsetOpt : Option Int) :
    (List Note × Nat) × Store :=
  let limit : Int := match limitOpt with | none => 100 | some l => if l = 0 then 100 else l
  let offset : Int := match offsetOpt with | none => 0 | some o => if o = 0 then 0 else o
  let categoryNotes := (mapGet s.notes category).getD []
  let total := categoryNotes.length
  let sorted := List.insertionSort newerEq categoryNotes
  ((jsSlice sorted offset (offset + limit), total), s)

/-- `NotesStore.getNoteById`. -/
def getNoteById (s : Store) (nid : String) : Option Note × Store :=
  (mapGet s.notesById nid, s)

/-- `NotesStore.getCategories`: every category entry with its note count. -/
def getCategories (s : Store) : List (String × Nat) × Store :=
  (s.notes.map fun q => (q.1, q.2.length), s)

/-- `NotesStore.deleteNote`: remove from the id map, then remove the first
id match from the category's sequence and drop the category when emptied. -/
def deleteNote (s : Store) (nid : String) : Bool × Store :=
  match mapGet s.notesById nid with
  | none => (false, s)
  | some note =>
    let byId := mapDelete s.notesById nid
    match mapGet s.notes note.category with
    | none => (true, { notesById := byId, notes := s.notes })
    | some l =>
      let l' := removeFirstById l nid
      let notes' := if l'.length = 0 then mapDelete s.notes note.category
                    else mapSet s.notes note.category l'
      (true, { notesById := byId, notes := notes' })

/-- `NotesStore.clear`. -/
def clear (_ : Store) : Store := ⟨[], []⟩

end NotesStore

/-- API `createNote`: validate the request (applying the `tags` default),
run the store method, translate a `ZodError` from either step into an
`Error` whose message joins the issue messages with `"; "`. -/
def createNote (s : Store) (req : CreateNoteRequest) (r : Nat → Nat) (now : Int) :
    Except String Note × Store :=
  match createRequestIssues req with
  | [] =>
    match NotesStore.createNote s (parsedReq req) r now with
    | (Except.ok n, s') => (Except.ok n, s')
    | (Except.error issues, s') =>
      (Except.error ("Validation failed: " ++ String.intercalate "; " issues), s')
  | issues => (Except.error ("Validation failed: " ++ String.intercalate "; " issues), s)

/-- API `readNotesByCategory`: validate `{category, ...options}` (defaults
`limit = 100`, `offset = 0`), run the store method, and return the notes,
the total and the category. -/
def readNotesByCategory (s : Store) (category : String) (limitOpt offsetOpt : Option Int) :
    Except String (List Note × Nat × String) × Store :=
  match readRequestIssues category limitOpt offsetOpt with
  | [] =>
    let res := NotesStore.readNotesByCategory s category
      (some (limitOpt.getD 100)) (some (offsetOpt.getD 0))
    (Except.ok (res.1.1, res.1.2, category), res.2)
  | issues => (Except.error ("Validation failed: " ++ String.intercalate "; " issues), s)

/-- API `getNoteById`. -/
def getNoteById (s : Store) (nid : String) : Option Note × Store :=
  NotesStore.getNoteById s nid

/-- API `getCategories`. -/
def getCategories (s : Store) : List (String × Nat) × Store :=
  NotesStore.getCategories s

/-- API `deleteNote`. -/
def deleteNote (s : Store) (nid : String) : Bool × Store :=
  NotesStore.deleteNote s nid

/-- API `clearAllNotes`. -/
def clearAllNotes (s : Store) : Store :=
  NotesStore.clear s

/-! ### Association-map lemmas -/

theorem mapGet_eq_none_iff {α : Type} {m : List (String × α)} {k : String} :
    mapGet m k = none ↔ k ∉ m.map Prod.fst := by
  induction m with
  | nil => simp [mapGet]
  | cons p m ih =>
    by_cases h : p.1 = k <;> simp [mapGet, h, ih] <;> tauto

theorem mapGet_mem {α : Type} {m : List (String × α)} {k : String} {v : α}
    (h : mapGet m k = some v) : (k, v) ∈ m := by
  induction m with
  | nil => simp [mapGet] at h
  | cons p m ih =>
    by_cases hp : p.1 = k
    · simp [mapGet, hp] at h
      subst hp h
      simp
    · simp [mapGet, hp] at h
      exact List.mem_cons_of_mem _ (ih h)

theorem mapGet_append_of_none {α : Type} {m m' : List (String × α)} {k : String}
    (h : mapGet m k = none) : mapGet (m ++ m') k = mapGet m' k := by
  induction m with
  | nil => simp
  | cons p m ih =>
    by_cases hp : p.1 = k <;> simp [mapGet, hp] at h ⊢
    exact ih h

theorem mapGet_replace_self {α : Type} {m : List (String × α)} {k : String} (v : α)
    (h : (mapGet m k).isSome) : mapGet (mapReplace m k v) k = some v := by
  induction m with
  | nil => simp [mapGet] at h
  | cons p m ih =>
    by_cases hp : p.1 = k
    · simp [mapReplace, hp, mapGet]
    · simp [mapGet, hp] at h
      simp [mapReplace, hp, mapGet, ih h]

theorem mapGet_append_singleton_ne {α : Type} {m : List (String × α)} {k k' : String}
    (v : α) (h : k' ≠ k) : mapGet (m ++ [(k, v)]) k' = mapGet m k' := by
  induction m with
  | nil => simp [mapGet, Ne.symm h]
  | cons p m ih =>
    by_cases hp : p.1 = k' <;> simp [mapGet, hp, ih]

theorem mapGet_replace_ne {α : Type} {m : List (String × α)} {k k' : String} (v : α)
    (h : k' ≠ k) : mapGet (mapReplace m k v) k' = mapGet m k' := by
  induction m with
  | nil => simp [mapReplace]
  | cons p m ih =>
    by_cases hp : p.1 = k
    · rw [mapReplace, if_pos hp]
      rw [mapGet, mapGet, if_neg (Ne.symm h), if_neg (by rw [hp]; exact Ne.symm h), ih]
    · rw [mapReplace, if_neg hp]
      by_cases hq : p.1 = k' <;> simp [mapGet, hq, ih]

theorem mapGet_set_self {α : Type} (m : List (String × α)) (k : String) (v : α) :
    mapGet (mapSet m k v) k = some v := by
  unfold mapSet
  cases hv : mapGet m k with
  | some w =>
    simp only [Option.isSome_some, if_true]
    exact mapGet_replace_self v (by simp [hv])
  | none =>
    simp only [Option.isSome_none, Bool.false_eq_true, if_false]
    rw [mapGet_append_of_none hv]
    simp [mapGet]

theorem mapGet_set_ne {α : Type} {m : List (String × α)} {k k' : String} (v : α)
    (h : k' ≠ k) : mapGet (mapSet m k v) k' = mapGet m k' := by
  unfold mapSet
  by_cases hv : (mapGet m k).isSome
  · simp only [hv, if_true]
    exact mapGet_replace_ne v h
  · simp only [hv, if_false]
    exact mapGet_append_singleton_ne v h

theorem mapGet_delete_self {α : Type} (m : List (String × α)) (k : String) :
    mapGet (mapDelete m k) k = none := by
  induction m with
  | nil => simp [mapDelete, mapGet]
  | cons p m ih =>
    by_cases hp : p.1 = k <;> simp [mapDelete, hp, mapGet, ih]

theorem mapGet_delete_ne {α : Type} {m : List (String × α)} {k k' : String}
    (h : k' ≠ k) : mapGet (mapDelete m k) k' = mapGet m k' := by
  induction m with
  | nil => simp [mapDelete]
  | cons p m ih =>
    by_cases hp : p.1 = k
    · rw [mapDelete, if_pos hp, ih, mapGet, if_neg (by rw [hp]; exact Ne.symm h)]
    · by_cases hq : p.1 = k' <;> simp [mapDelete, hp, mapGet, hq, ih, h]

theorem mem_mapDelete {α : Type} {m : List (String × α)} {k : String} {p : String × α} :
    p ∈ mapDelete m k ↔ p ∈ m ∧ p.1 ≠ k := by
  induction m with
  | nil => simp [mapDelete]
  | cons q m ih =>
    by_cases hq : q.1 = k
    · simp only [mapDelete, if_pos hq, ih, List.mem_cons]
      constructor
      · exact fun h => ⟨Or.inr h.1, h.2⟩
      · rintro ⟨hm | hm, hne⟩
        · exact absurd (hm ▸ hq) hne
        · exact ⟨hm, hne⟩
    · simp only [mapDelete, if_neg hq, List.mem_cons, ih]
      constructor
      · rintro (rfl | ⟨hm, hne⟩)
        · exact ⟨Or.inl rfl, hq⟩
        · exact ⟨Or.inr hm, hne⟩
      · rintro ⟨rfl | hm, hne⟩
        · exact Or.inl rfl
        · exact Or.inr ⟨hm, hne⟩

theorem mem_mapReplace {α : Type} {m : List (String × α)} {k : String} {v : α}
    {p : String × α} (h : p ∈ mapReplace m k v) : p = (k, v) ∨ (p ∈ m ∧ p.1 ≠ k) := by
  induction m with
  | nil => simp [mapReplace] at h
  | cons q m ih =>
    by_cases hq : q.1 = k
    · rw [mapReplace, if_pos hq] at h
      rcases List.mem_cons.mp h with rfl | h
      · exact Or.inl rfl
      · rcases ih h with h | h
        · exact Or.inl h
        · exact Or.inr ⟨List.mem_cons_of_mem _ h.1, h.2⟩
    · rw [mapReplace, if_neg hq] at h
      rcases List.mem_cons.mp h with rfl | h
      · exact Or.inr ⟨List.mem_cons_self _ _, hq⟩
      · rcases ih h with h | h
        · exact Or.inl h
        · exact Or.inr ⟨List.mem_cons_of_mem _ h.1, h.2⟩

theorem mem_mapSet {α : Type} {m : List (String × α)} {k : String} {v : α}
    {p : String × α} (h : p ∈ mapSet m k v) : p = (k, v) ∨ (p ∈ m ∧ p.1 ≠ k) := by
  unfold mapSet at h
  by_cases hv : (mapGet m k).isSome
  · rw [if_pos hv] at h
    exact mem_mapReplace h
  · rw [if_neg hv] at h
    rcases List.mem_append.mp h with h | h
    · refine Or.inr ⟨h, ?_⟩
      intro hk
      have hn : mapGet m k = none := Option.not_isSome_iff_eq_none.mp hv
      exact (mapGet_eq_none_iff.mp hn) (hk ▸ List.mem_map_of_mem Prod.fst h)
    · simp at h
      exact Or.inl (by rcases p with ⟨a, b⟩; simp at h ⊢; exact h)

theorem mem_mapReplace_of_ne {α : Type} {m : List (String × α)} {k : String} {v : α}
    {p : String × α} (hm : p ∈ m) (hne : p.1 ≠ k) : p ∈ mapReplace m k v := by
  induction m with
  | nil => simp at hm
  | cons q m ih =>
    by_cases hq : q.1 = k
    · rw [mapReplace, if_pos hq]
      rcases List.mem_cons.mp hm with rfl | hm
      · exact absurd hq hne
      · exact List.mem_cons_of_mem _ (ih hm)
    · rw [mapReplace, if_neg hq]
      rcases List.mem_cons.mp hm with rfl | hm
      · exact List.mem_cons_self _ _
      · exact List.mem_cons_of_mem _ (ih hm)

theorem mem_mapSet_of_ne {α : Type} {m : List (String × α)} {k : String} {v : α}
    {p : String × α} (hm : p ∈ m) (hne : p.1 ≠ k) : p ∈ mapSet m k v := by
  unfold mapSet
  by_cases hv : (mapGet m k).isSome
  · rw [if_pos hv]
    exact mem_mapReplace_of_ne hm hne
  · rw [if_neg hv]
    exact List.mem_append.mpr (Or.inl hm)

theorem mem_mapSet_self {α : Type} (m : List (String × α)) (k : String) (v : α) :
    (k, v) ∈ mapSet m k v := by
  unfold mapSet
  by_cases hv : (mapGet m k).isSome
  · rw [if_pos hv]
    induction m with
    | nil => simp [mapGet] at hv
    | cons q m ih =>
      by_cases hq : q.1 = k
      · rw [mapReplace, if_pos hq]
        exact List.mem_cons_self _ _
      · rw [mapReplace, if_neg hq]
        rw [mapGet, if_neg hq] at hv
        exact List.mem_cons_of_mem _ (ih hv)
  · rw [if_neg hv]
    simp

theorem keys_mapReplace {α : Type} (m : List (String × α)) (k : String) (v : α) :
    (mapReplace m k v).map Prod.fst = m.map Prod.fst := by
  induction m with
  | nil => simp [mapReplace]
  | cons q m ih =>
    by_cases hq : q.1 = k <;> simp [mapReplace, hq, ih]

theorem nodupKeys_mapSet {α : Type} {m : List (String × α)} (k : String) (v : α)
    (h : (m.map Prod.fst).Nodup) : ((mapSet m k v).map Prod.fst).Nodup := by
  unfold mapSet
  by_cases hv : (mapGet m k).isSome
  · rw [if_pos hv, keys_mapReplace]
    exact h
  · rw [if_neg hv]
    have hk : k ∉ m.map Prod.fst :=
      mapGet_eq_none_iff.mp (Option.not_isSome_iff_eq_none.mp hv)
    simp [List.nodup_append, h, hk]

theorem sublist_mapDelete {α : Type} (m : List (String × α)) (k : String) :
    (mapDelete m k).Sublist m := by
  induction m with
  | nil => simp [mapDelete]
  | cons q m ih =>
    by_cases hq : q.1 = k
    · rw [mapDelete, if_pos hq]
      exact ih.cons _
    · rw [mapDelete, if_neg hq]
      exact ih.cons₂ _

theorem nodupKeys_mapDelete {α : Type} {m : List (String × α)} (k : String)
    (h : (m.map Prod.fst).Nodup) : ((mapDelete m k).map Prod.fst).Nodup :=
  ((sublist_mapDelete m k).map Prod.fst).nodup h

theorem mapGet_of_nodup_mem {α : Type} {m : List (String × α)} {p : String × α}
    (hnd : (m.map Prod.fst).Nodup) (hm : p ∈ m) : mapGet m p.1 = some p.2 := by
  induction m with
  | nil => simp at hm
  | cons q m ih =>
    rcases List.mem_cons.mp hm with rfl | hm
    · rw [mapGet, if_pos rfl]
    · have hq : q.1 ≠ p.1 := by
        intro he
        have : q.1 ∈ m.map Prod.fst := he ▸ List.mem_map_of_mem Prod.fst hm
        exact (List.nodup_cons.mp hnd).1 this
      rw [mapGet, if_neg hq]
      exact ih (List.nodup_cons.mp hnd).2 hm

/-! ### The generated id -/

/-- Unfolding of `generateId`: the 36 characters of the rendered id.  The
draws `0`–`14` and `16`–`30` fill the `x` slots, draw `15` fills the `y`
slot, and the `4` of the third group is literal. -/
theorem generateId_data (r : Nat → Nat) :
    (NotesStore.generateId r).data =
      [hexDigit (r 0 % 16), hexDigit (r 1 % 16), hexDigit (r 2 % 16), hexDigit (r 3 % 16),
       hexDigit (r 4 % 16), hexDigit (r 5 % 16), hexDigit (r 6 % 16), hexDigit (r 7 % 16), '-',
       hexDigit (r 8 % 16), hexDigit (r 9 % 16), hexDigit (r 10 % 16), hexDigit (r 11 % 16), '-',
       '4', hexDigit (r 12 % 16), hexDigit (r 13 % 16), hexDigit (r 14 % 16), '-',
       hexDigit (((r 15 % 16) &&& 3) ||| 8),
       hexDigit (r 16 % 16), hexDigit (r 17 % 16), hexDigit (r 18 % 16), '-',
       hexDigit (r 19 % 16), hexDigit (r 20 % 16), hexDigit (r 21 % 16), hexDigit (r 22 % 16),
       hexDigit (r 23 % 16), hexDigit (r 24 % 16), hexDigit (r 25 % 16), hexDigit (r 26 % 16),
       hexDigit (r 27 % 16), hexDigit (r 28 % 16), hexDigit (r 29 % 16), hexDigit (r 30 % 16)] :=
  rfl

theorem hexDigit_mod_isHex (n : Nat) : isHexDigitChar (hexDigit (n % 16)) = true := by
  have h : ∀ v < 16, isHexDigitChar (hexDigit v) = true := by decide
  exact h _ (Nat.mod_lt _ (by norm_num))

theorem hexDigit_variant_isHex (n : Nat) :
    isHexDigitChar (hexDigit (((n % 16) &&& 3) ||| 8)) = true := by
  have h : ∀ v < 16, isHexDigitChar (hexDigit ((v &&& 3) ||| 8)) = true := by decide
  exact h _ (Nat.mod_lt _ (by norm_num))

theorem hexDigit_variant_mem (n : Nat) :
    hexDigit (((n % 16) &&& 3) ||| 8) ∈ ['8', '9', 'a', 'b'] := by
  have h : ∀ v < 16, hexDigit ((v &&& 3) ||| 8) ∈ ['8', '9', 'a', 'b'] := by decide
  exact h _ (Nat.mod_lt _ (by norm_num))

theorem generateId_isUuid (r : Nat → Nat) : isUuid (NotesStore.generateId r) = true := by
  unfold isUuid
  rw [generateId_data]
  simp only [isUuidList, List.all_cons, List.all_nil,
    hexDigit_mod_isHex, hexDigit_variant_isHex]
  decide

/-- C8: every id generated for a created note has the random-UUID v4
layout: five hex groups of lengths 8-4-4-4-12 separated by hyphens, the
version nibble (first digit of the third group) is `4`, and the variant
nibble (first digit of the fourth group) is one of `8`, `9`, `a`, `b` —
for every outcome of the random source. -/
theorem c8_generateId_uuid_v4_layout (r : Nat → Nat) :
    ∃ g1 g2 g3 g4 g5 : List Char,
      (NotesStore.generateId r).data =
        g1 ++ '-' :: (g2 ++ '-' :: (g3 ++ '-' :: (g4 ++ '-' :: g5))) ∧
      g1.length = 8 ∧ g2.length = 4 ∧ g3.length = 4 ∧ g4.length = 4 ∧ g5.length = 12 ∧
      (g1 ++ g2 ++ g3 ++ g4 ++ g5).all isHexDigitChar = true ∧
      g3.headD ' ' = '4' ∧ g4.headD ' ' ∈ ['8', '9', 'a', 'b'] := by
  refine ⟨[hexDigit (r 0 % 16), hexDigit (r 1 % 16), hexDigit (r 2 % 16), hexDigit (r 3 % 16),
           hexDigit (r 4 % 16), hexDigit (r 5 % 16), hexDigit (r 6 % 16), hexDigit (r 7 % 16)],
          [hexDigit (r 8 % 16), hexDigit (r 9 % 16), hexDigit (r 10 % 16), hexDigit (r 11 % 16)],
          ['4', hexDigit (r 12 % 16), hexDigit (r 13 % 16), hexDigit (r 14 % 16)],
          [hexDigit (((r 15 % 16) &&& 3) ||| 8),
           hexDigit (r 16 % 16), hexDigit (r 17 % 16), hexDigit (r 18 % 16)],
          [hexDigit (r 19 % 16), hexDigit (r 20 % 16), hexDigit (r 21 % 16), hexDigit (r 22 % 16),
           hexDigit (r 23 % 16), hexDigit (r 24 % 16), hexDigit (r 25 % 16), hexDigit (r 26 % 16),
           hexDigit (r 27 % 16), hexDigit (r 28 % 16), hexDigit (r 29 % 16), hexDigit (r 30 % 16)],
          ?_, rfl, rfl, rfl, rfl, rfl, ?_, rfl, ?_⟩
  · rw [generateId_data]
    rfl
  · simp only [List.append_assoc, List.cons_append, List.nil_append, List.all_cons,
      List.all_nil, hexDigit_mod_isHex, hexDigit_variant_isHex]
    decide
  · exact hexDigit_variant_mem (r 15)

/-! ### Reading by category -/

theorem jsSlice_sublist {α : Type} (l : List α) (a b : Int) : (jsSlice l a b).Sublist l :=
  (List.take_sublist _ _).trans (List.drop_sublist _ _)

theorem jsSlice_length_le {α : Type} (l : List α) (a L : Int) (ha : 0 ≤ a) (hL : 0 < L) :
    ((jsSlice l a (a + L)).length : Int) ≤ L := by
  unfold jsSlice jsSliceIdx
  have h1 : ¬ a < 0 := by omega
  have h2 : ¬ a + L < 0 := by omega
  simp only [h1, h2, if_false, List.length_take, List.length_drop]
  omega

theorem readRequestIssues_eq_nil {category : String} {lo oo : Option Int} :
    readRequestIssues category lo oo = [] ↔
      ¬ category.length < 1 ∧ (∀ l, lo = some l → 0 < l) ∧ (∀ o, oo = some o → 0 ≤ o) := by
  unfold readRequestIssues
  cases lo with
  | none =>
    cases oo with
    | none => by_cases hc : category.length < 1 <;> simp [hc]
    | some o =>
      by_cases hc : category.length < 1 <;> by_cases ho : o < 0 <;>
        simp [hc, ho] <;> omega
  | some l =>
    cases oo with
    | none =>
      by_cases hc : category.length < 1 <;> by_cases hl : l ≤ 0 <;>
        simp [hc, hl] <;> omega
    | some o =>
      by_cases hc : category.length < 1 <;> by_cases hl : l ≤ 0 <;> by_cases ho : o < 0 <;>
        simp [hc, hl, ho] <;> omega

theorem store_read_eq (s : Store) (category : String) (L O : Int) (hL : 0 < L) (hO : 0 ≤ O) :
    NotesStore.readNotesByCategory s category (some L) (some O) =
      ((jsSlice (List.insertionSort newerEq ((mapGet s.notes category).getD [])) O (O + L),
        ((mapGet s.notes category).getD []).length), s) := by
  unfold NotesStore.readNotesByCategory
  have h1 : ¬ L = 0 := by omega
  by_cases h2 : O = 0 <;> simp [h1, h2]

theorem api_read_ok {s : Store} {category : String} {lo oo : Option Int}
    {notes : List Note} {total : Nat} {cat : String} {s' : Store}
    (h : readNotesByCategory s category lo oo = (Except.ok (notes, total, cat), s')) :
    readRequestIssues category lo oo = [] ∧
    notes = jsSlice (List.insertionSort newerEq ((mapGet s.notes category).getD []))
              (oo.getD 0) (oo.getD 0 + lo.getD 100) ∧
    total = ((mapGet s.notes category).getD []).length ∧ cat = category ∧ s' = s := by
  unfold readNotesByCategory at h
  split at h
  case h_1 heq =>
    obtain ⟨hc, hl, ho⟩ := readRequestIssues_eq_nil.mp heq
    have hL : 0 < lo.getD 100 := by
      cases lo with
      | none => norm_num
      | some l => exact hl l rfl
    have hO : 0 ≤ oo.getD 0 := by
      cases oo with
      | none => norm_num
      | some o => exact ho o rfl
    rw [store_read_eq s category _ _ hL hO] at h
    simp only [Prod.mk.injEq, Except.ok.injEq] at h
    obtain ⟨⟨h1, h2, h3⟩, h4⟩ := h
    exact ⟨heq, h1.symm, h2.symm, h3.symm, h4.symm⟩
  case h_2 => simp at h

/-- C1: for every store state and valid `readNotesByCategory` call, the
returned notes sequence has length at most `limit` (default 100), and the
returned `total` equals the number of notes stored in the category before
slicing, for every choice of `limit` and `offset`. -/
theorem c1_read_limit_and_total {s : Store} {category : String} {lo oo : Option Int}
    {notes : List Note} {total : Nat} {cat : String} {s' : Store}
    (h : readNotesByCategory s category lo oo = (Except.ok (notes, total, cat), s')) :
    (notes.length : Int) ≤ lo.getD 100 ∧
    total = ((mapGet s.notes category).getD []).length := by
  obtain ⟨hnil, hnotes, htotal, -, -⟩ := api_read_ok h
  obtain ⟨-, hl, ho⟩ := readRequestIssues_eq_nil.mp hnil
  have hL : 0 < lo.getD 100 := by
    cases lo with
    | none => norm_num
    | some l => exact hl l rfl
  have hO : 0 ≤ oo.getD 0 := by
    cases oo with
    | none => norm_num
    | some o => exact ho o rfl
  refine ⟨?_, htotal⟩
  rw [hnotes]
  exact jsSlice_length_le _ _ _ hO hL

/-- C1 witness: a concrete successful call on a one-note store. -/
theorem c1_read_limit_and_total_witness :
    ((([] : List Note).length : Int) ≤ (some 5 : Option Int).getD 100 ∧
      (0 : Nat) = ((mapGet emptyStore.notes "C").getD []).length) :=
  @c1_read_limit_and_total emptyStore "C" (some 5) (some 0) [] 0 "C" emptyStore (by decide)

/-- C2: the notes sequence returned by a successful `readNotesByCategory`
is sorted by `createdAt` non-increasing, and equals the category's stored
notes sorted by `createdAt` descending and then sliced
`[offset, offset + limit)`. -/
theorem c2_read_sorted_desc_slice {s : Store} {category : String} {lo oo : Option Int}
    {notes : List Note} {total : Nat} {cat : String} {s' : Store}
    (h : readNotesByCategory s category lo oo = (Except.ok (notes, total, cat), s')) :
    notes.Pairwise newerEq ∧
    ∃ sorted : List Note,
      sorted.Perm ((mapGet s.notes category).getD []) ∧ sorted.Pairwise newerEq ∧
      notes = jsSlice sorted (oo.getD 0) (oo.getD 0 + lo.getD 100) := by
  obtain ⟨-, hnotes, -, -, -⟩ := api_read_ok h
  have hsorted : (List.insertionSort newerEq ((mapGet s.notes category).getD [])).Pairwise newerEq :=
    List.sorted_insertionSort newerEq _
  refine ⟨?_, List.insertionSort newerEq ((mapGet s.notes category).getD []),
    List.perm_insertionSort newerEq _, hsorted, hnotes⟩
  rw [hnotes]
  exact hsorted.sublist (jsSlice_sublist _ _ _)

/-- C2 witness: the conclusion at a concrete successful call. -/
theorem c2_read_sorted_desc_slice_witness :
    (([] : List Note).Pairwise newerEq ∧
      ∃ sorted : List Note,
        sorted.Perm ((mapGet emptyStore.notes "C").getD []) ∧ sorted.Pairwise newerEq ∧
        ([] : List Note) = jsSlice sorted ((some 0 : Option Int).getD 0)
          ((some 0 : Option Int).getD 0 + (some 5 : Option Int).getD 100)) :=
  @c2_read_sorted_desc_slice emptyStore "C" (some 5) (some 0) [] 0 "C" emptyStore (by decide)

/-! ### Creation -/

theorem tagIssues_eq_nil {tags : List String} (h : ∀ t ∈ tags, t.length ≤ 30) :
    tagIssues tags = [] := by
  induction tags with
  | nil => rfl
  | cons t ts ih =>
    have ht : ¬ t.length > 30 := by
      have := h t (List.mem_cons_self t ts)
      omega
    have hts := ih fun u hu => h u (List.mem_cons_of_mem t hu)
    unfold tagIssues at hts ⊢
    simp only [List.flatMap_cons, ht, if_false, List.nil_append]
    exact hts

theorem strIssues_eq_nil {s : String} {lo hi : Nat} {loMsg hiMsg : String}
    (h1 : ¬ s.length < lo) (h2 : ¬ s.length > hi) :
    strIssues s lo hi loMsg hiMsg = [] := by
  simp [strIssues, h1, h2]

theorem createRequestIssues_eq_nil {req : CreateNoteRequest}
    (ht1 : 1 ≤ req.title.length) (ht2 : req.title.length ≤ 255)
    (hc : req.content.length ≤ 10000)
    (hk1 : 1 ≤ req.category.length) (hk2 : req.category.length ≤ 50)
    (htags : ∀ t ∈ req.tags.getD [], t.length ≤ 30) :
    createRequestIssues req = [] := by
  unfold createRequestIssues
  rw [strIssues_eq_nil (by omega) (by omega), strIssues_eq_nil (by omega) (by omega),
    strIssues_eq_nil (by omega) (by omega), tagIssues_eq_nil htags]
  rfl

theorem noteIssues_eq_nil {n : Note} (hid : isUuid n.id = true)
    (ht1 : 1 ≤ n.title.length) (ht2 : n.title.length ≤ 255)
    (hc : n.content.length ≤ 10000)
    (hk1 : 1 ≤ n.category.length) (hk2 : n.category.length ≤ 50)
    (htags : ∀ t ∈ n.tags, t.length ≤ 30) :
    noteIssues n = [] := by
  unfold noteIssues
  rw [strIssues_eq_nil (by omega) (by omega), strIssues_eq_nil (by omega) (by omega),
    strIssues_eq_nil (by omega) (by omega), tagIssues_eq_nil htags]
  simp [hid]

/-- Case analysis of `NotesStore.createNote`: on a valid note both indexes
are updated; on a validation failure the state is returned untouched. -/
theorem store_create_cases (s : Store) (req : CreateNoteRequest) (r : Nat → Nat) (now : Int) :
    (noteIssues (NotesStore.mkNote req r now) = [] ∧
      NotesStore.createNote s req r now =
        (Except.ok (NotesStore.mkNote req r now),
         { notesById := mapSet s.notesById (NotesStore.generateId r) (NotesStore.mkNote req r now),
           notes := mapSet s.notes req.category
             (((mapGet s.notes req.category).getD []) ++ [NotesStore.mkNote req r now]) })) ∨
    (∃ i is, noteIssues (NotesStore.mkNote req r now) = i :: is ∧
      NotesStore.createNote s req r now = (Except.error (i :: is), s)) := by
  unfold NotesStore.createNote
  cases h : noteIssues (NotesStore.mkNote req r now) with
  | nil => exact Or.inl ⟨rfl, rfl⟩
  | cons i is => exact Or.inr ⟨i, is, rfl, rfl⟩

/-- Case analysis of the API `createNote`: either it succeeds (the request
and the built note are both valid) or it fails leaving the store as it was. -/
theorem api_create_cases (s : Store) (req : CreateNoteRequest) (r : Nat → Nat) (now : Int) :
    (createRequestIssues req = [] ∧ noteIssues (NotesStore.mkNote (parsedReq req) r now) = [] ∧
      createNote s req r now =
        (Except.ok (NotesStore.mkNote (parsedReq req) r now),
         { notesById := mapSet s.notesById (NotesStore.generateId r) (NotesStore.mkNote (parsedReq req) r now),
           notes := mapSet s.notes (parsedReq req).category
             (((mapGet s.notes (parsedReq req).category).getD []) ++
              [NotesStore.mkNote (parsedReq req) r now]) })) ∨
    (∃ msg, (createNote s req r now).1 = Except.error msg ∧ (createNote s req r now).2 = s) := by
  unfold createNote
  cases hreq : createRequestIssues req with
  | cons i is => exact Or.inr ⟨_, rfl, rfl⟩
  | nil =>
    rcases store_create_cases s (parsedReq req) r now with ⟨hni, hmain⟩ | ⟨i, is, hni, hmain⟩
    · rw [hmain]
      exact Or.inl ⟨rfl, hni, rfl⟩
    · rw [hmain]
      exact Or.inr ⟨_, rfl, rfl⟩

/-- C3: if `createNote` fails with a validation error, the store state
after the call is identical to the state before it — no entry is added to
the id index or to any category sequence. -/
theorem c3_create_error_leaves_store_unchanged {s : Store} {req : CreateNoteRequest}
    {r : Nat → Nat} {now : Int} {msg : String}
    (h : (createNote s req r now).1 = Except.error msg) :
    (createNote s req r now).2 = s := by
  rcases api_create_cases s req r now with ⟨-, -, heq⟩ | ⟨msg', -, h2⟩
  · rw [heq] at h
    simp at h
  · exact h2

/-- C3 witness: a failing create (empty title) on the empty store leaves it
empty. -/
theorem c3_witness :
    (createNote emptyStore ⟨"", "x", "C", none, none⟩ (fun _ => 0) 0).2 = emptyStore :=
  @c3_create_error_leaves_store_unchanged emptyStore ⟨"", "x", "C", none, none⟩ (fun _ => 0) 0
    "Validation failed: Title is required" (by decide)

theorem api_create_error_of_issues {s : Store} {req : CreateNoteRequest} {r : Nat → Nat}
    {now : Int} {i : String} {is : List String}
    (h : createRequestIssues req = i :: is) :
    (createNote s req r now).1 =
      Except.error ("Validation failed: " ++ String.intercalate "; " (i :: is)) := by
  unfold createNote
  rw [h]

/-- C4: with otherwise-valid fields, creating with an empty title fails with
message `"Validation failed: Title is required"`; a 256-character title
fails with `"Validation failed: Title must not exceed 255 characters"`
(the messages joined by `"; "` after the fixed prefix); a 255-character
title succeeds. -/
theorem c4_title_length_boundaries (s : Store) (content category : String)
    (tags : Option (List String)) (mood : Option Mood) (r : Nat → Nat) (now : Int)
    (hc : content.length ≤ 10000) (hk1 : 1 ≤ category.length) (hk2 : category.length ≤ 50)
    (htags : ∀ t ∈ tags.getD [], t.length ≤ 30) :
    ((createNote s ⟨"", content, category, tags, mood⟩ r now).1 =
      Except.error "Validation failed: Title is required") ∧
    (∀ title : String, title.length = 256 →
      (createNote s ⟨title, content, category, tags, mood⟩ r now).1 =
        Except.error "Validation failed: Title must not exceed 255 characters") ∧
    (∀ title : String, title.length = 255 →
      ∃ n, (createNote s ⟨title, content, category, tags, mood⟩ r now).1 = Except.ok n) := by
  have hC : ¬ content.length > 10000 := by omega
  have hK1 : ¬ category.length < 1 := by omega
  have hK2 : ¬ category.length > 50 := by omega
  refine ⟨?_, ?_, ?_⟩
  · have h1 : createRequestIssues ⟨"", content, category, tags, mood⟩ = ["Title is required"] := by
      simp [createRequestIssues, strIssues, hC, hK1, hK2, tagIssues_eq_nil htags]
    rw [api_create_error_of_issues h1]
    rfl
  · intro title ht
    have hT1 : ¬ title.length < 1 := by omega
    have hT2 : title.length > 255 := by omega
    have h1 : createRequestIssues ⟨title, content, category, tags, mood⟩ =
        ["Title must not exceed 255 characters"] := by
      simp [createRequestIssues, strIssues, hC, hK1, hK2, hT1, hT2, tagIssues_eq_nil htags]
    rw [api_create_error_of_issues h1]
    rfl
  · intro title ht
    have hreq : createRequestIssues ⟨title, content, category, tags, mood⟩ = [] :=
      createRequestIssues_eq_nil (by show 1 ≤ title.length; omega)
        (by show title.length ≤ 255; omega) (by show content.length ≤ 10000; omega)
        (by show 1 ≤ category.length; omega) (by show category.length ≤ 50; omega)
        (by show ∀ t ∈ tags.getD [], t.length ≤ 30; exact htags)
    have hnote : noteIssues
        (NotesStore.mkNote (parsedReq ⟨title, content, category, tags, mood⟩) r now) = [] :=
      noteIssues_eq_nil (generateId_isUuid r) (by show 1 ≤ title.length; omega)
        (by show title.length ≤ 255; omega) (by show content.length ≤ 10000; omega)
        (by show 1 ≤ category.length; omega) (by show category.length ≤ 50; omega)
        (by show ∀ t ∈ tags.getD [], t.length ≤ 30; exact htags)
    refine ⟨NotesStore.mkNote (parsedReq ⟨title, content, category, tags, mood⟩) r now, ?_⟩
    unfold createNote
    rw [hreq]
    rcases store_create_cases s (parsedReq ⟨title, content, category, tags, mood⟩) r now with
      ⟨-, hmain⟩ | ⟨i, is, hni, -⟩
    · rw [hmain]
    · rw [hnote] at hni
      exact absurd hni (by simp)

set_option maxRecDepth 4096 in
/-- C4 witness: concrete valid side fields; the three parts evaluated on
concrete titles of lengths 0, 256 and 255. -/
theorem c4_witness :
    ((createNote emptyStore ⟨"", "x", "C", none, none⟩ (fun _ => 0) 0).1 =
      Except.error "Validation failed: Title is required") ∧
    ((createNote emptyStore ⟨String.mk (List.replicate 256 'a'), "x", "C", none, none⟩
        (fun _ => 0) 0).1 =
      Except.error "Validation failed: Title must not exceed 255 characters") ∧
    (∃ n, (createNote emptyStore ⟨String.mk (List.replicate 255 'a'), "x", "C", none, none⟩
        (fun _ => 0) 0).1 = Except.ok n) := by
  obtain ⟨h1, h2, h3⟩ := c4_title_length_boundaries emptyStore "x" "C" none none (fun _ => 0) 0
    (by decide) (by decide) (by decide) (by simp)
  exact ⟨h1, h2 (String.mk (List.replicate 256 'a')) (by decide),
    h3 (String.mk (List.replicate 255 'a')) (by decide)⟩

/-- C7 amended: every successfully created note has `createdAt = updatedAt`
and its id is exactly the rendering of the call's random draws; ids of two
creations are therefore distinct whenever their rendered draws differ (the
code does not guarantee uniqueness when the random source repeats). -/
theorem c7_create_timestamps_and_id {s : Store} {req : CreateNoteRequest} {r : Nat → Nat}
    {now : Int} {n : Note} {s' : Store}
    (h : createNote s req r now = (Except.ok n, s')) :
    n.createdAt = n.updatedAt ∧ n.id = NotesStore.generateId r ∧
    (∀ (s2 : Store) (req2 : CreateNoteRequest) (r2 : Nat → Nat) (now2 : Int) (n2 : Note)
      (s2' : Store), createNote s2 req2 r2 now2 = (Except.ok n2, s2') →
      NotesStore.generateId r ≠ NotesStore.generateId r2 → n.id ≠ n2.id) := by
  have hmk : ∀ (sa : Store) (reqa : CreateNoteRequest) (ra : Nat → Nat) (nowa : Int)
      (na : Note) (sa' : Store), createNote sa reqa ra nowa = (Except.ok na, sa') →
      na = NotesStore.mkNote (parsedReq reqa) ra nowa := by
    intro sa reqa ra nowa na sa' ha
    rcases api_create_cases sa reqa ra nowa with ⟨-, -, heq⟩ | ⟨msg, herr, -⟩
    · rw [heq] at ha
      injection ha with ha1 ha2
      injection ha1 with ha3
      exact ha3.symm
    · rw [ha] at herr
      simp at herr
  have hn := hmk s req r now n s' h
  subst hn
  refine ⟨rfl, rfl, ?_⟩
  intro s2 req2 r2 now2 n2 s2' h2 hne
  rw [hmk s2 req2 r2 now2 n2 s2' h2]
  exact hne

/-- C7 amended witness: a concrete successful creation. -/
theorem c7_witness :
    (NotesStore.mkNote (parsedReq ⟨"A", "", "C", none, none⟩) (fun _ => 0) 0).createdAt =
      (NotesStore.mkNote (parsedReq ⟨"A", "", "C", none, none⟩) (fun _ => 0) 0).updatedAt ∧
    (NotesStore.mkNote (parsedReq ⟨"A", "", "C", none, none⟩) (fun _ => 0) 0).id =
      NotesStore.generateId (fun _ => 0) := by
  obtain ⟨h1, h2, -⟩ := @c7_create_timestamps_and_id emptyStore ⟨"A", "", "C", none, none⟩
    (fun _ => 0) 0 (NotesStore.mkNote (parsedReq ⟨"A", "", "C", none, none⟩) (fun _ => 0) 0)
    ((createNote emptyStore ⟨"A", "", "C", none, none⟩ (fun _ => 0) 0).2) (by decide)
  exact ⟨h1, h2⟩

/-- C7 counterexample: two successful creations whose random draws coincide
return two different notes carrying the same id, so a created note's id is
not always distinct from previously created ids. -/
theorem c7_counterexample :
    ((createNote emptyStore ⟨"A", "", "C", none, none⟩ (fun _ => 0) 0).1.toOption.map Note.id =
      (createNote (createNote emptyStore ⟨"A", "", "C", none, none⟩ (fun _ => 0) 0).2
        ⟨"B", "", "C", none, none⟩ (fun _ => 0) 0).1.toOption.map Note.id) ∧
    ((createNote emptyStore ⟨"A", "", "C", none, none⟩ (fun _ => 0) 0).1.toOption.map
        Note.id).isSome = true ∧
    ((createNote emptyStore ⟨"A", "", "C", none, none⟩ (fun _ => 0) 0).1.toOption ≠
      (createNote (createNote emptyStore ⟨"A", "", "C", none, none⟩ (fun _ => 0) 0).2
        ⟨"B", "", "C", none, none⟩ (fun _ => 0) 0).1.toOption) := by
  decide

/-! ### Validation of reads, and read purity -/

theorem string_length_eq_zero_iff {s : String} : s.length = 0 ↔ s = "" := by
  cases s with
  | mk data => cases data <;> simp [String.length, String.ext_iff]

theorem api_read_isOk_iff (s : Store) (category : String) (lo oo : Option Int) :
    (readNotesByCategory s category lo oo).1.isOk = true ↔
      readRequestIssues category lo oo = [] := by
  unfold readNotesByCategory
  split
  case h_1 heq => simp [heq, Except.isOk, Except.toBool]
  case h_2 heq =>
    simp only [Except.isOk, Except.toBool]
    simp only [Bool.false_eq_true, false_iff]
    exact heq

theorem readRequestIssues_ne_nil_iff {category : String} {lo oo : Option Int} :
    readRequestIssues category lo oo ≠ [] ↔
      (category = "" ∨ (∃ l, lo = some l ∧ l ≤ 0) ∨ (∃ o, oo = some o ∧ o < 0)) := by
  simp only [Ne]
  rw [not_congr readRequestIssues_eq_nil]
  constructor
  · intro h
    by_contra hno
    push_neg at hno
    obtain ⟨h1, h2, h3⟩ := hno
    apply h
    refine ⟨fun hlt => h1 (string_length_eq_zero_iff.mp (by omega)),
      fun l hl => ?_, fun o ho => ?_⟩
    · have := h2 l hl
      omega
    · have := h3 o ho
      omega
  · rintro (hc | ⟨l, hl, hle⟩ | ⟨o, ho, hlt⟩) ⟨h1, h2, h3⟩
    · exact h1 (by rw [hc]; decide)
    · have := h2 l hl
      omega
    · have := h3 o ho
      omega

theorem jsSlice_nil {α : Type} (a b : Int) : jsSlice ([] : List α) a b = [] := by
  unfold jsSlice
  simp

/-- C5 amended: `readNotesByCategory` fails with a validation error exactly
when the category is empty, the limit is a non-positive integer, or the
offset is a negative integer (the source schema also requires
`category.min(1)`); with a nonempty category, valid options and no stored
notes for the category, it returns `{notes = [], total = 0, category}`. -/
theorem c5_read_validation_amended (s : Store) (category : String) (lo oo : Option Int) :
    ((readNotesByCategory s category lo oo).1.isOk = false ↔
      (category = "" ∨ (∃ l, lo = some l ∧ l ≤ 0) ∨ (∃ o, oo = some o ∧ o < 0))) ∧
    (category ≠ "" → (∀ l, lo = some l → 0 < l) → (∀ o, oo = some o → 0 ≤ o) →
      mapGet s.notes category = none →
      (readNotesByCategory s category lo oo).1 = Except.ok ([], 0, category)) := by
  constructor
  · rw [← readRequestIssues_ne_nil_iff, Ne, ← api_read_isOk_iff s category lo oo]
    cases (readNotesByCategory s category lo oo).1.isOk <;> simp
  · intro hc hl ho hnone
    have hnil : readRequestIssues category lo oo = [] := by
      rw [readRequestIssues_eq_nil]
      refine ⟨?_, hl, ho⟩
      intro hlt
      exact hc (string_length_eq_zero_iff.mp (by omega))
    have hL : 0 < lo.getD 100 := by
      cases lo with
      | none => norm_num
      | some l => exact hl l rfl
    have hO : 0 ≤ oo.getD 0 := by
      cases oo with
      | none => norm_num
      | some o => exact ho o rfl
    unfold readNotesByCategory
    rw [hnil]
    rw [store_read_eq s category _ _ hL hO, hnone]
    simp [jsSlice_nil]

/-- C5 amended witness: an unknown (but nonempty) category is not an error
and returns an empty page with total 0. -/
theorem c5_amended_witness :
    (readNotesByCategory emptyStore "unknown" none none).1 =
      Except.ok ([], 0, "unknown") :=
  (c5_read_validation_amended emptyStore "unknown" none none).2 (by decide)
    (fun l h => by cases h) (fun o h => by cases h) rfl

/-- C5 counterexample: the call with the empty category, `limit = 1` and
`offset = 0` fails although the limit is a positive integer and the offset
is non-negative, so validation failure is not exactly characterised by the
limit/offset conditions. -/
theorem c5_counterexample :
    (readNotesByCategory emptyStore "" (some 1) (some 0)).1.isOk = false ∧
      (0 : Int) < 1 ∧ (0 : Int) ≤ 0 := by
  decide

/-- C10: the read operations (`readNotesByCategory`, `getNoteById`,
`getCategories`) leave the store state entirely unchanged; in particular
the sort acts on a copy, so every category keeps its stored insertion-order
sequence across reads. -/
theorem c10_reads_leave_store_unchanged (s : Store) (category nid : String)
    (lo oo : Option Int) :
    (readNotesByCategory s category lo oo).2 = s ∧
    (getNoteById s nid).2 = s ∧
    (getCategories s).2 = s ∧
    ∀ c, mapGet ((readNotesByCategory s category lo oo).2).notes c = mapGet s.notes c := by
  have h : (readNotesByCategory s category lo oo).2 = s := by
    unfold readNotesByCategory
    split <;> rfl
  exact ⟨h, rfl, rfl, fun c => by rw [h]⟩

/-! ### Deletion -/

/-- Case analysis of `NotesStore.deleteNote`, following the source: lookup,
id-map removal, category-sequence removal, empty-category cleanup. -/
theorem store_delete_cases (s : Store) (nid : String) :
    (mapGet s.notesById nid = none ∧ NotesStore.deleteNote s nid = (false, s)) ∨
    (∃ n, mapGet s.notesById nid = some n ∧
      (NotesStore.deleteNote s nid).1 = true ∧
      (NotesStore.deleteNote s nid).2.notesById = mapDelete s.notesById nid ∧
      ((mapGet s.notes n.category = none ∧ (NotesStore.deleteNote s nid).2.notes = s.notes) ∨
       (∃ l, mapGet s.notes n.category = some l ∧
         (NotesStore.deleteNote s nid).2.notes =
           (if (removeFirstById l nid).length = 0 then mapDelete s.notes n.category
            else mapSet s.notes n.category (removeFirstById l nid))))) := by
  unfold NotesStore.deleteNote
  cases h1 : mapGet s.notesById nid with
  | none => exact Or.inl ⟨rfl, rfl⟩
  | some n =>
    simp only []
    cases h2 : mapGet s.notes n.category with
    | none => exact Or.inr ⟨n, rfl, rfl, rfl, Or.inl ⟨h2, rfl⟩⟩
    | some l => exact Or.inr ⟨n, rfl, rfl, rfl, Or.inr ⟨l, h2, rfl⟩⟩

/-- C6: `deleteNote` returns true exactly when a note with that id is
stored; on success `getNoteById` subsequently returns nothing, and when the
deleted note (stored under its own id, as every reachable state guarantees)
was the only note in its category's sequence, `getCategories` no longer
lists that category. -/
theorem c6_delete_semantics (s : Store) (nid : String) :
    ((deleteNote s nid).1 = true ↔ (mapGet s.notesById nid).isSome = true) ∧
    ((deleteNote s nid).1 = true →
      (getNoteById (deleteNote s nid).2 nid).1 = none ∧
      ∀ n, mapGet s.notesById nid = some n → n.id = nid →
        mapGet s.notes n.category = some [n] →
        ∀ e ∈ (getCategories (deleteNote s nid).2).1, e.1 ≠ n.category) := by
  unfold deleteNote getNoteById getCategories NotesStore.getNoteById NotesStore.getCategories
  rcases store_delete_cases s nid with ⟨hnone, heq⟩ | ⟨n0, hsome, hb, hby, hnotes⟩
  · rw [heq]
    constructor
    · simp [hnone]
    · intro h
      simp at h
  · constructor
    · simp [hb, hsome]
    · intro _
      constructor
      · show mapGet (NotesStore.deleteNote s nid).2.notesById nid = none
        rw [hby]
        exact mapGet_delete_self _ _
      · intro n heq' hid hcat
        have hn : n = n0 := by
          rw [hsome] at heq'
          injection heq' with hv
          exact hv.symm
        subst hn
        rcases hnotes with ⟨hnone2, -⟩ | ⟨l, hsome2, hres⟩
        · rw [hcat] at hnone2
          cases hnone2
        · rw [hcat] at hsome2
          injection hsome2 with hl
          subst hl
          have hrem : removeFirstById [n] nid = [] := by
            unfold removeFirstById
            rw [if_pos hid]
          rw [hrem] at hres
          simp only [List.length_nil, if_true] at hres
          intro e he
          show e.1 ≠ n.category
          rcases List.mem_map.mp (by exact he) with ⟨q, hq, hqe⟩
          rw [hres] at hq
          have := (mem_mapDelete.mp hq).2
          rw [← hqe]
          exact this

/-- A one-note store used as a concrete witness state. -/
def wNote : Note := ⟨"i1", "t", "c", "C", [], 0, 0, none⟩

/-- The store holding exactly `wNote`. -/
def wStore : Store := ⟨[("i1", wNote)], [("C", [wNote])]⟩

/-- C6 witness: deleting the only note of category `"C"` removes the note
and the category. -/
theorem c6_witness :
    (getNoteById (deleteNote wStore "i1").2 "i1").1 = none ∧
    ∀ e ∈ (getCategories (deleteNote wStore "i1").2).1, e.1 ≠ wNote.category := by
  have h := (c6_delete_semantics wStore "i1").2 (by decide)
  exact ⟨h.1, h.2 wNote (by decide) (by decide) (by decide)⟩

/-! ### The two-index consistency invariant -/

/-- Consistency of the two indexes, as claimed for reachable states: every
id-map entry holds a note whose id is its key and which appears exactly
once in its own category's sequence; every category entry is non-empty and
all its notes are indexed under their ids with the same value; and every
count reported by `getCategories` is the length of that category's
sequence. -/
def WF (s : Store) : Prop :=
  (∀ p ∈ s.notesById, p.2.id = p.1 ∧
      p.2 ∈ (mapGet s.notes p.2.category).getD [] ∧
      (((mapGet s.notes p.2.category).getD []).filter
        (fun m => decide (m.id = p.2.id))).length = 1) ∧
  (∀ q ∈ s.notes, q.2 ≠ [] ∧ ∀ n ∈ q.2, n.category = q.1 ∧ mapGet s.notesById n.id = some n) ∧
  (∀ e ∈ (getCategories s).1, (mapGet s.notes e.1).map List.length = some e.2)

instance (s : Store) : Decidable (WF s) := by
  unfold WF
  exact instDecidableAnd

/-- Both association lists have pairwise-distinct keys (a JS `Map`
invariant). -/
def NodupKeys (s : Store) : Prop :=
  (s.notesById.map Prod.fst).Nodup ∧ (s.notes.map Prod.fst).Nodup

/-- Store states reachable from the empty store through the API operations
`createNote`, `deleteNote` and `clearAllNotes`, for arbitrary requests,
random draws and clock values. -/
inductive Reachable : Store → Prop where
  | empty : Reachable emptyStore
  | create (s : Store) (req : CreateNoteRequest) (r : Nat → Nat) (now : Int) :
      Reachable s → Reachable (createNote s req r now).2
  | delete (s : Store) (nid : String) : Reachable s → Reachable (deleteNote s nid).2
  | clearAll (s : Store) : Reachable s → Reachable (clearAllNotes s)

/-- Reachability through creations whose generated id is fresh, i.e. the
random source never re-renders an id already present in the id map. -/
inductive ReachableFresh : Store → Prop where
  | empty : ReachableFresh emptyStore
  | create (s : Store) (req : CreateNoteRequest) (r : Nat → Nat) (now : Int) :
      ReachableFresh s → mapGet s.notesById (NotesStore.generateId r) = none →
      ReachableFresh (createNote s req r now).2
  | delete (s : Store) (nid : String) : ReachableFresh s → ReachableFresh (deleteNote s nid).2
  | clearAll (s : Store) : ReachableFresh s → ReachableFresh (clearAllNotes s)

/-- The store reached by two creations whose random draws coincide: the
second overwrites the first id-map entry while both notes stay in the
category sequence. -/
def collisionStore : Store :=
  (createNote (createNote emptyStore ⟨"A", "", "C", none, none⟩ (fun _ => 0) 0).2
    ⟨"B", "", "C", none, none⟩ (fun _ => 0) 0).2

/-- C9 counterexample: a reachable store (two creations with identical
random draws) in which the id-map note appears twice in its category's
sequence, so the claimed invariant fails on some reachable states. -/
theorem c9_counterexample : Reachable collisionStore ∧ ¬ WF collisionStore := by
  constructor
  · exact Reachable.create _ _ _ _ (Reachable.create _ _ _ _ Reachable.empty)
  · decide

theorem wf_counts {s : Store} (hnd : (s.notes.map Prod.fst).Nodup) :
    ∀ e ∈ (getCategories s).1, (mapGet s.notes e.1).map List.length = some e.2 := by
  intro e he
  rcases List.mem_map.mp he with ⟨q, hq, rfl⟩
  rw [mapGet_of_nodup_mem hnd hq]
  rfl

theorem mem_removeFirstById {l : List Note} {nid : String} {m : Note}
    (h : m ∈ removeFirstById l nid) : m ∈ l := by
  induction l with
  | nil => simpa [removeFirstById] using h
  | cons x xs ih =>
    by_cases hx : x.id = nid
    · rw [removeFirstById, if_pos hx] at h
      exact List.mem_cons_of_mem _ h
    · rw [removeFirstById, if_neg hx] at h
      rcases List.mem_cons.mp h with rfl | h
      · exact List.mem_cons_self _ _
      · exact List.mem_cons_of_mem _ (ih h)

theorem mem_removeFirstById_of_ne {l : List Note} {nid : String} {m : Note}
    (hm : m ∈ l) (hne : m.id ≠ nid) : m ∈ removeFirstById l nid := by
  induction l with
  | nil => simp at hm
  | cons x xs ih =>
    by_cases hx : x.id = nid
    · rw [removeFirstById, if_pos hx]
      rcases List.mem_cons.mp hm with rfl | hm
      · exact absurd hx hne
      · exact hm
    · rw [removeFirstById, if_neg hx]
      rcases List.mem_cons.mp hm with rfl | hm
      · exact List.mem_cons_self _ _
      · exact List.mem_cons_of_mem _ (ih hm)

theorem removeFirstById_filter_ne (l : List Note) (nid j : String) (hj : j ≠ nid) :
    (removeFirstById l nid).filter (fun m => decide (m.id = j)) =
      l.filter (fun m => decide (m.id = j)) := by
  induction l with
  | nil => rfl
  | cons x xs ih =>
    by_cases hx : x.id = nid
    · rw [removeFirstById, if_pos hx]
      have hxj : ¬ (x.id = j) := by
        rw [hx]
        exact Ne.symm hj
      rw [List.filter_cons]
      simp [hxj]
    · rw [removeFirstById, if_neg hx]
      rw [List.filter_cons, List.filter_cons, ih]

theorem removeFirstById_no_match {l : List Note} {nid : String}
    (h : (l.filter (fun m => decide (m.id = nid))).length = 1) :
    ∀ m ∈ removeFirstById l nid, m.id ≠ nid := by
  induction l with
  | nil => simp [removeFirstById]
  | cons x xs ih =>
    by_cases hx : x.id = nid
    · rw [removeFirstById, if_pos hx]
      intro m hm hmid
      have h0 : (xs.filter (fun m => decide (m.id = nid))).length = 0 := by
        rw [List.filter_cons, if_pos (by simp [hx])] at h
        simp only [List.length_cons] at h
        omega
      have hmem : m ∈ xs.filter (fun m => decide (m.id = nid)) :=
        List.mem_filter.mpr ⟨hm, by simp [hmid]⟩
      rw [List.length_eq_zero] at h0
      rw [h0] at hmem
      simp at hmem
    · rw [removeFirstById, if_neg hx]
      intro m hm
      rcases List.mem_cons.mp hm with rfl | hm
      · exact hx
      · refine ih ?_ m hm
        rw [List.filter_cons] at h
        simpa [hx] using h

theorem wf_insert (s : Store) (note : Note) (hnd : NodupKeys s) (hwf : WF s)
    (hfresh : mapGet s.notesById note.id = none) :
    NodupKeys ⟨mapSet s.notesById note.id note,
               mapSet s.notes note.category
                 (((mapGet s.notes note.category).getD []) ++ [note])⟩ ∧
    WF ⟨mapSet s.notesById note.id note,
        mapSet s.notes note.category
          (((mapGet s.notes note.category).getD []) ++ [note])⟩ := by
  obtain ⟨hwf1, hwf2, -⟩ := hwf
  obtain ⟨hnd1, hnd2⟩ := hnd
  have hOld : ∀ m ∈ (mapGet s.notes note.category).getD [],
      m.category = note.category ∧ mapGet s.notesById m.id = some m := by
    intro m hm
    cases hc : mapGet s.notes note.category with
    | none =>
      rw [hc] at hm
      simp at hm
    | some l =>
      rw [hc] at hm
      simp only [Option.getD_some] at hm
      exact (hwf2 (note.category, l) (mapGet_mem hc)).2 m hm
  have hOldId : ∀ m ∈ (mapGet s.notes note.category).getD [], m.id ≠ note.id := by
    intro m hm he
    have h2 := (hOld m hm).2
    rw [he, hfresh] at h2
    cases h2
  have hndA : ((mapSet s.notesById note.id note).map Prod.fst).Nodup :=
    nodupKeys_mapSet _ _ hnd1
  have hndB : ((mapSet s.notes note.category
      (((mapGet s.notes note.category).getD []) ++ [note])).map Prod.fst).Nodup :=
    nodupKeys_mapSet _ _ hnd2
  refine ⟨⟨hndA, hndB⟩, ?_, ?_, wf_counts hndB⟩
  · intro p hp
    rcases mem_mapSet hp with rfl | ⟨hpm, hpne⟩
    · refine ⟨rfl, ?_, ?_⟩
      · show note ∈ (mapGet (mapSet s.notes note.category
          (((mapGet s.notes note.category).getD []) ++ [note])) note.category).getD []
        rw [mapGet_set_self]
        simp
      · show ((mapGet (mapSet s.notes note.category
          (((mapGet s.notes note.category).getD []) ++ [note])) note.category).getD []
            |>.filter (fun m => decide (m.id = note.id))).length = 1
        rw [mapGet_set_self]
        simp only [Option.getD_some, List.filter_append]
        rw [List.filter_eq_nil.mpr (by intro m hm; simpa using hOldId m hm)]
        simp
    · obtain ⟨hpid, hpmem, hpcount⟩ := hwf1 p hpm
      have hpid_ne : p.2.id ≠ note.id := by
        rw [hpid]
        exact hpne
      by_cases hpc : p.2.category = note.category
      · refine ⟨hpid, ?_, ?_⟩
        · rw [hpc, mapGet_set_self]
          simp only [Option.getD_some]
          refine List.mem_append.mpr (Or.inl ?_)
          rw [← hpc]
          exact hpmem
        · rw [hpc, mapGet_set_self]
          simp only [Option.getD_some, List.filter_append]
          have hnil : List.filter (fun m => decide (m.id = p.2.id)) [note] = [] := by
            simp [Ne.symm hpid_ne]
          rw [hnil, List.append_nil, ← hpc]
          exact hpcount
      · refine ⟨hpid, ?_, ?_⟩
        · rw [mapGet_set_ne _ hpc]
          exact hpmem
        · rw [mapGet_set_ne _ hpc]
          exact hpcount
  · intro q hq
    rcases mem_mapSet hq with rfl | ⟨hqm, hqne⟩
    · refine ⟨by simp, ?_⟩
      intro n hn
      rcases List.mem_append.mp hn with hn | hn
      · obtain ⟨hcat, hby⟩ := hOld n hn
        refine ⟨hcat, ?_⟩
        rw [mapGet_set_ne note (hOldId n hn)]
        exact hby
      · simp only [List.mem_singleton] at hn
        subst hn
        exact ⟨rfl, by rw [mapGet_set_self]⟩
    · obtain ⟨hne, hall⟩ := hwf2 q hqm
      refine ⟨hne, ?_⟩
      intro n hn
      obtain ⟨hcat, hby⟩ := hall n hn
      refine ⟨hcat, ?_⟩
      have hni : n.id ≠ note.id := by
        intro he
        rw [he, hfresh] at hby
        cases hby
      rw [mapGet_set_ne _ hni]
      exact hby

theorem wf_delete (s : Store) (nid : String) (hnd : NodupKeys s) (hwf : WF s) :
    NodupKeys (deleteNote s nid).2 ∧ WF (deleteNote s nid).2 := by
  show NodupKeys (NotesStore.deleteNote s nid).2 ∧ WF (NotesStore.deleteNote s nid).2
  rcases store_delete_cases s nid with ⟨-, heq⟩ | ⟨n0, hsome, -, hby, hnotes⟩
  · rw [heq]
    exact ⟨hnd, hwf⟩
  · obtain ⟨hwf1, hwf2, -⟩ := hwf
    obtain ⟨hnd1, hnd2⟩ := hnd
    obtain ⟨hid0, hmem0, hcount0⟩ := hwf1 (nid, n0) (mapGet_mem hsome)
    have hid0' : n0.id = nid := hid0
    have hmem0' : n0 ∈ (mapGet s.notes n0.category).getD [] := hmem0
    have hcount0a : (((mapGet s.notes n0.category).getD []).filter
        (fun m => decide (m.id = n0.id))).length = 1 := hcount0
    rcases hnotes with ⟨hnone2, -⟩ | ⟨l, hsome2, hres⟩
    · rw [hnone2] at hmem0'
      simp at hmem0'
    · rw [hsome2] at hmem0' hcount0a
      simp only [Option.getD_some] at hmem0' hcount0a
      have hcount0' : (l.filter (fun m => decide (m.id = nid))).length = 1 := by
        rw [← hid0']
        exact hcount0a
      obtain ⟨hlne, hall⟩ := hwf2 (n0.category, l) (mapGet_mem hsome2)
      have hsubs : ∀ m ∈ removeFirstById l nid, m ∈ l := fun m hm => mem_removeFirstById hm
      have hnomatch : ∀ m ∈ removeFirstById l nid, m.id ≠ nid :=
        removeFirstById_no_match hcount0'
      have hkeep : ∀ m ∈ l, m.id ≠ nid → m ∈ removeFirstById l nid :=
        fun m hm hne => mem_removeFirstById_of_ne hm hne
      have hidkey : ∀ m, mapGet s.notesById m.id = some m → m.id = nid → m = n0 := by
        intro m hm he
        rw [he, hsome] at hm
        injection hm with hv
        exact hv.symm
      have hndA : ((mapDelete s.notesById nid).map Prod.fst).Nodup := nodupKeys_mapDelete _ hnd1
      by_cases hlen : (removeFirstById l nid).length = 0
      · rw [if_pos hlen] at hres
        have hndB : ((mapDelete s.notes n0.category).map Prod.fst).Nodup :=
          nodupKeys_mapDelete _ hnd2
        have hstore : (NotesStore.deleteNote s nid).2 =
            (⟨mapDelete s.notesById nid, mapDelete s.notes n0.category⟩ : Store) := by
          rw [← hby, ← hres]
        rw [hstore]
        refine ⟨⟨hndA, hndB⟩, ?_, ?_, wf_counts hndB⟩
        · intro p hp
          obtain ⟨hpm, hpne⟩ := mem_mapDelete.mp hp
          obtain ⟨hpid, hpmem, hpcount⟩ := hwf1 p hpm
          have hpid_ne : p.2.id ≠ nid := by
            rw [hpid]
            exact hpne
          by_cases hpc : p.2.category = n0.category
          · exfalso
            rw [hpc, hsome2] at hpmem
            simp only [Option.getD_some] at hpmem
            have hmem' := hkeep p.2 hpmem hpid_ne
            rw [List.length_eq_zero] at hlen
            rw [hlen] at hmem'
            simp at hmem'
          · exact ⟨hpid, by rw [mapGet_delete_ne hpc]; exact hpmem,
              by rw [mapGet_delete_ne hpc]; exact hpcount⟩
        · intro q hq
          obtain ⟨hqm, hqne⟩ := mem_mapDelete.mp hq
          obtain ⟨hqn, hqall⟩ := hwf2 q hqm
          refine ⟨hqn, ?_⟩
          intro n hn
          obtain ⟨hcat, hbyn⟩ := hqall n hn
          have hni : n.id ≠ nid := by
            intro he
            have hn0 := hidkey n hbyn he
            exact hqne (hcat.symm.trans (congrArg Note.category hn0))
          exact ⟨hcat, by rw [mapGet_delete_ne hni]; exact hbyn⟩
      · rw [if_neg hlen] at hres
        have hndB : ((mapSet s.notes n0.category (removeFirstById l nid)).map Prod.fst).Nodup :=
          nodupKeys_mapSet _ _ hnd2
        have hstore : (NotesStore.deleteNote s nid).2 =
            (⟨mapDelete s.notesById nid,
              mapSet s.notes n0.category (removeFirstById l nid)⟩ : Store) := by
          rw [← hby, ← hres]
        rw [hstore]
        refine ⟨⟨hndA, hndB⟩, ?_, ?_, wf_counts hndB⟩
        · intro p hp
          obtain ⟨hpm, hpne⟩ := mem_mapDelete.mp hp
          obtain ⟨hpid, hpmem, hpcount⟩ := hwf1 p hpm
          have hpid_ne : p.2.id ≠ nid := by
            rw [hpid]
            exact hpne
          by_cases hpc : p.2.category = n0.category
          · refine ⟨hpid, ?_, ?_⟩
            · rw [hpc, mapGet_set_self]
              simp only [Option.getD_some]
              apply hkeep
              · rw [hpc, hsome2] at hpmem
                simpa using hpmem
              · exact hpid_ne
            · rw [hpc, mapGet_set_self]
              simp only [Option.getD_some]
              rw [removeFirstById_filter_ne l nid p.2.id hpid_ne]
              rw [hpc, hsome2] at hpcount
              simpa using hpcount
          · exact ⟨hpid, by rw [mapGet_set_ne _ hpc]; exact hpmem,
              by rw [mapGet_set_ne _ hpc]; exact hpcount⟩
        · intro q hq
          rcases mem_mapSet hq with rfl | ⟨hqm, hqne⟩
          · refine ⟨?_, ?_⟩
            · intro he
              apply hlen
              have he' : removeFirstById l nid = [] := he
              rw [he']
              rfl
            · intro n hn
              have hnl := hsubs n hn
              obtain ⟨hcat, hbyn⟩ := hall n hnl
              exact ⟨hcat, by rw [mapGet_delete_ne (hnomatch n hn)]; exact hbyn⟩
          · obtain ⟨hqn, hqall⟩ := hwf2 q hqm
            refine ⟨hqn, ?_⟩
            intro n hn
            obtain ⟨hcat, hbyn⟩ := hqall n hn
            have hni : n.id ≠ nid := by
              intro he
              have hn0 := hidkey n hbyn he
              exact hqne (hcat.symm.trans (congrArg Note.category hn0))
            exact ⟨hcat, by rw [mapGet_delete_ne hni]; exact hbyn⟩

theorem wf_create (s : Store) (req : CreateNoteRequest) (r : Nat → Nat) (now : Int)
    (hnd : NodupKeys s) (hwf : WF s)
    (hfresh : mapGet s.notesById (NotesStore.generateId r) = none) :
    NodupKeys (createNote s req r now).2 ∧ WF (createNote s req r now).2 := by
  rcases api_create_cases s req r now with ⟨-, -, heq⟩ | ⟨msg, -, hst⟩
  · rw [heq]
    exact wf_insert s (NotesStore.mkNote (parsedReq req) r now) hnd hwf hfresh
  · rw [hst]
    exact ⟨hnd, hwf⟩

theorem reachableFresh_inv (s : Store) (h : ReachableFresh s) : NodupKeys s ∧ WF s := by
  induction h with
  | empty => exact ⟨⟨List.nodup_nil, List.nodup_nil⟩, by decide⟩
  | create s req r now hr hfresh ih => exact wf_create s req r now ih.1 ih.2 hfresh
  | delete s nid hr ih => exact wf_delete s nid ih.1 ih.2
  | clearAll s hr ih => exact ⟨⟨List.nodup_nil, List.nodup_nil⟩, (by decide : WF emptyStore)⟩

/-- C9 amended: every store state reachable from the empty store via
`createNote`, `deleteNote` and `clearAllNotes` keeps the two indexes
consistent — a note is in the id map exactly when it appears exactly once
in the category map under its own category, every category sequence is
non-empty, and each `getCategories` count equals the sequence length —
provided each creation's generated id is fresh (not already an id-map key);
without that freshness proviso the code allows the invariant to break. -/
theorem c9_reachable_invariant (s : Store) (h : ReachableFresh s) : WF s :=
  (reachableFresh_inv s h).2

/-- C9 amended witness: the invariant at the store reached by one concrete
creation from the empty store. -/
theorem c9_witness :
    WF (createNote emptyStore ⟨"A", "", "C", none, none⟩ (fun _ => 0) 0).2 :=
  c9_reachable_invariant _
    (ReachableFresh.create emptyStore ⟨"A", "", "C", none, none⟩ (fun _ => 0) 0
      ReachableFresh.empty rfl)
